import Mathlib

/-!
Shallow embedding of the StudyAI chat session engine
(`src/frontend/components/pages/ChatPage.tsx`) and proofs of the spec's
claims about it.

The component keeps four pieces of state relevant to the engine:
`messages` (the message log), `pendingRef` (the accumulation buffer for
the streamed assistant answer), `streaming` (whether a turn is in
flight), plus the outgoing-context selectors `selectedDoc` and
`queryMode`, and the text `input`.  The WebSocket `onmessage` handler
dispatches on `data.type ∈ {chunk, done, error}`; `send` is the submit
entry point; `sendToWS` builds the outgoing request; `connectWS` opens
the socket only when a bearer token is stored.
-/

namespace StudyAI

/-- Role of a chat message, mirroring the `role` field of the `Message`
interface in `ChatPage.tsx` (`"user" | "assistant"`). -/
inductive Role where
  | user
  | assistant
  deriving DecidableEq, Repr

/-- One conversation turn, mirroring the `Message` interface in
`ChatPage.tsx` (`role`, `content`).  The source has no explicit status
field: a turn is "open" exactly while it is the trailing assistant
message and `streaming` is true; `done`/`error` clear `streaming`. -/
structure Message where
  role : Role
  content : String
  deriving DecidableEq, Repr

/-- The engine state held by the `ChatPage` component: the React states
`messages`, `streaming`, `selectedDoc`, `queryMode`, `input` and the
mutable ref `pendingRef` (here `pending`). -/
structure ChatState where
  messages : List Message
  pending : String
  streaming : Bool
  selectedDoc : Option Nat
  queryMode : String
  input : String
  deriving DecidableEq, Repr

/-- The `data.type === "chunk"` branch of `ws.onmessage`
(ChatPage.tsx lines 53-64): `pendingRef.current += data.text`, then the
last message is replaced when it is an assistant message, otherwise a
new assistant message holding the whole accumulated text is pushed. -/
def handleChunk (s : ChatState) (text : String) : ChatState :=
  let pending := s.pending ++ text
  let updated :=
    match s.messages.getLast? with
    | some last =>
      if last.role = Role.assistant then
        s.messages.dropLast ++ [{ last with content := pending }]
      else
        s.messages ++ [⟨Role.assistant, pending⟩]
    | none => s.messages ++ [⟨Role.assistant, pending⟩]
  { s with pending := pending, messages := updated }

/-- The `data.type === "done"` branch of `ws.onmessage`
(ChatPage.tsx lines 65-67): reset the accumulation buffer and stop
streaming.  The message log itself is untouched. -/
def handleDone (s : ChatState) : ChatState :=
  { s with pending := "", streaming := false }

/-- The `data.type === "error"` branch of `ws.onmessage`
(ChatPage.tsx lines 68-74): append a fresh assistant message whose
content is the template literal `Error: ${data.message}` and stop
streaming.  Note the source neither rewrites the previous assistant
message nor resets `pendingRef` here. -/
def handleError (s : ChatState) (message : String) : ChatState :=
  { s with
    messages := s.messages ++ [⟨Role.assistant, "Error: " ++ message⟩]
    streaming := false }

/-- JavaScript `String.prototype.trim`, as called on `input` in `send`:
the string with whitespace stripped from both ends. -/
def jsTrim (s : String) : String :=
  ⟨((s.data.dropWhile Char.isWhitespace).reverse.dropWhile
      Char.isWhitespace).reverse⟩

/-- The outgoing request built by `sendToWS` (ChatPage.tsx lines 86-93):
`{question, document_id, query_mode, chat_history}`. -/
structure OutgoingRequest where
  question : String
  document_id : Option Nat
  query_mode : String
  chat_history : List Message
  deriving DecidableEq, Repr

/-- JavaScript `array.slice(-10)`: the last ten elements (the whole
array when it has at most ten). -/
def sliceLast10 (l : List Message) : List Message :=
  l.drop (l.length - 10)

/-- The request assembled by `sendToWS(question, history)`
(ChatPage.tsx lines 86-93).  The `.map` over the history projects each
message to `{role, content}`, the identity in this model. -/
def sendToWS (s : ChatState) (question : String) (history : List Message) :
    OutgoingRequest :=
  { question := question
    document_id := s.selectedDoc
    query_mode := s.queryMode
    chat_history := sliceLast10 history }

/-- How `send` dispatches the built request (ChatPage.tsx lines
104-109): directly when the socket is open, otherwise via
`connectWS(); setTimeout(..., 300)` — a fixed 300 ms delay with no
check that the connection actually became ready. -/
inductive SendPlan where
  | immediate (req : OutgoingRequest)
  | deferredAfterFixedDelay (req : OutgoingRequest)
  deriving DecidableEq, Repr

/-- The request carried by a `SendPlan`. -/
def SendPlan.req : SendPlan → OutgoingRequest
  | .immediate r => r
  | .deferredAfterFixedDelay r => r

/-- The `send` function (ChatPage.tsx lines 95-110).  `wsReady` models
`wsRef.current !== null && wsRef.current.readyState === WebSocket.OPEN`.
Returns the successor state together with the dispatched request, if
any: `none` means the guard `!input.trim() || streaming` rejected the
submission silently. -/
def send (wsReady : Bool) (s : ChatState) : ChatState × Option SendPlan :=
  if jsTrim s.input = "" ∨ s.streaming then (s, none)
  else
    let question := jsTrim s.input
    let newMessages := s.messages ++ [⟨Role.user, question⟩]
    let s' := { s with
      input := ""
      streaming := true
      pending := ""
      messages := newMessages }
    let req := sendToWS s' question newMessages
    if wsReady then (s', some (SendPlan.immediate req))
    else (s', some (SendPlan.deferredAfterFixedDelay req))

/-- A live connection, carrying the token it was opened with
(`new WebSocket(WS_BASE + "/ws/chat?token=" + token)`). -/
structure Conn where
  token : String
  deriving DecidableEq, Repr

/-- The credential check at the top of `connectWS` (ChatPage.tsx lines
45-48): `localStorage.getItem("access_token")` yields `stored`; on a
missing (or empty, hence falsy) token the function returns before
constructing a socket, leaving `wsRef` as it was; otherwise a new
connection built from the freshly read token replaces it. -/
def connectWS (stored : Option String) (wsRef : Option Conn) : Option Conn :=
  match stored with
  | none => wsRef
  | some t => if t = "" then wsRef else some ⟨t⟩

/-- The `setSelectedDoc` state setter wired to the scope `<select>`. -/
def setScope (s : ChatState) (id : Option Nat) : ChatState :=
  { s with selectedDoc := id }

/-- The `setQueryMode` state setter wired to the mode `<select>`. -/
def setMode (s : ChatState) (v : String) : ChatState :=
  { s with queryMode := v }

/-- The events the engine reacts to: a user submission, or one of the
three tagged frames arriving on the socket. -/
inductive Event where
  | submit
  | chunk (text : String)
  | done
  | error (message : String)
  deriving DecidableEq, Repr

/-- One engine step: `submit` runs `send` (dropping the dispatched
request), the other events run the matching `onmessage` branch. -/
def step (wsReady : Bool) (s : ChatState) : Event → ChatState
  | .submit => (send wsReady s).1
  | .chunk t => handleChunk s t
  | .done => handleDone s
  | .error m => handleError s m

/-- Processing a sequence of events in arrival order. -/
def runEvents (wsReady : Bool) (s : ChatState) (es : List Event) : ChatState :=
  es.foldl (step wsReady) s

/-- Concatenation of a list of text-deltas in arrival order. -/
def concatDeltas : List String → String
  | [] => ""
  | t :: ts => t ++ concatDeltas ts

/-- Invariant maintained by the engine: while a turn is in flight
(`streaming = true`), a trailing assistant message holds exactly the
accumulated buffer `pendingRef`.  It holds after `send` (which resets
the buffer and leaves a user message last) and is preserved by every
handler. -/
def openTurnInv (s : ChatState) : Prop :=
  s.streaming = true → ∀ x, s.messages.getLast? = some x →
    x.role = Role.assistant → x.content = s.pending

/-- Events admissible under the transport contract of §4.1: frames of
the in-flight request (`chunk`, `done`, `error`) arrive only while a
turn is actually in flight; a submission may happen at any time (the
guard in `send` rejects it when one is in flight). -/
def admissible (s : ChatState) : Event → Prop
  | .submit => True
  | .chunk _ => s.streaming = true
  | .done => s.streaming = true
  | .error _ => s.streaming = true

/-- The invariant `openTurnInv` holds in every state reached by the
engine from a state satisfying it, whatever event is processed. -/
theorem openTurnInv_step (wsReady : Bool) (s : ChatState) (e : Event)
    (hinv : openTurnInv s) : openTurnInv (step wsReady s e) := by
  cases e with
  | submit =>
    show openTurnInv (send wsReady s).1
    unfold send
    by_cases h1 : jsTrim s.input = ""
    · simpa [h1] using hinv
    · by_cases h2 : s.streaming
      · simpa [h1, h2] using hinv
      · cases wsReady <;>
          · intro _ x hx hr
            simp [h1, h2, List.getLast?_concat] at hx
            rw [← hx] at hr
            simp at hr
  | chunk t =>
    intro hstr x hx hr
    simp only [step, handleChunk] at hx hstr ⊢
    rcases List.eq_nil_or_concat s.messages with hm | ⟨L, b, hm⟩
    · simp [hm] at hx
      simp [← hx]
    · rw [List.concat_eq_append] at hm
      by_cases hb : b.role = Role.assistant
      · simp only [hm, List.getLast?_concat, hb, if_pos, List.dropLast_concat,
          Option.some.injEq] at hx
        simp [← hx]
      · simp only [hm, List.getLast?_concat, hb, if_neg, not_false_iff,
          Option.some.injEq] at hx
        simp [← hx]
  | done => intro hstr; simp [step, handleDone] at hstr
  | error m =>
    intro hstr
    simp [step, handleError] at hstr

/-- The last ten elements of a list are at most ten elements. -/
theorem sliceLast10_length_le (l : List Message) : (sliceLast10 l).length ≤ 10 := by
  simp only [sliceLast10, List.length_drop]
  omega

/-- The last ten elements of a list form a suffix of it, so their
relative (oldest-first) order is the list's own. -/
theorem sliceLast10_suffix (l : List Message) : ∃ pre, pre ++ sliceLast10 l = l :=
  ⟨l.take (l.length - 10), List.take_append_drop _ l⟩

/-- C2, counterexample: after one accumulated chunk (`"Hi"`), an error
fragment `"boom"` leaves the partial assistant turn `"Hi"` in the log
untouched and appends a separate `"Error: boom"` turn; the accumulation
buffer still holds `"Hi"`.  The claim instead requires the accumulated
turn's content to be replaced by the placeholder and the buffer to be
discarded. -/
theorem error_fragment_keeps_accumulated_turn :
    (handleError ⟨[⟨Role.user, "q"⟩, ⟨Role.assistant, "Hi"⟩], "Hi", true,
        none, "normal", ""⟩ ("boom")).messages
      = [⟨Role.user, "q"⟩, ⟨Role.assistant, "Hi"⟩,
         ⟨Role.assistant, "Error: boom"⟩] ∧
    (handleError ⟨[⟨Role.user, "q"⟩, ⟨Role.assistant, "Hi"⟩], "Hi", true,
        none, "normal", ""⟩ ("boom")).pending = "Hi" := by
  decide

/-- C2 (amended): an error fragment appends a fresh assistant turn whose
content is `Error: ` followed by the carried message, and ends the
in-flight turn; the previously accumulated assistant turn, if any, stays
in the log unchanged, and the accumulation buffer is left as it was (it
is reset only by the next `send` or by `done`). -/
theorem error_fragment_appends_placeholder (s : ChatState) (m : String) :
    (handleError s m).messages
        = s.messages ++ [⟨Role.assistant, "Error: " ++ m⟩] ∧
    (handleError s m).streaming = false ∧
    (handleError s m).pending = s.pending :=
  ⟨rfl, rfl, rfl⟩

/-- C3, counterexample: submitting `"q"` on an empty log sends a context
equal to `[{user, "q"}]` — the just-appended in-flight user turn itself —
whereas the claim requires that turn to be excluded (the context here
would have to be empty). -/
theorem outgoing_context_contains_inflight_turn :
    Option.map SendPlan.req (send true ⟨[], "", false, none, "normal", "q"⟩).2
      = some ⟨"q", none, "normal", [⟨Role.user, "q"⟩]⟩ := by
  decide

/-- C3 (amended): the context attached to a new send is
`history.slice(-10)` of the log *after* appending the new user turn: at
most ten turns, oldest-first (a suffix of the updated log), but
including the just-appended user turn rather than excluding it. -/
theorem outgoing_context_last_ten (wsReady : Bool) (s : ChatState)
    (h1 : jsTrim s.input ≠ "") (h2 : s.streaming = false) :
    ∃ r, Option.map SendPlan.req (send wsReady s).2 = some r ∧
      r.chat_history = sliceLast10 (s.messages ++ [⟨Role.user, jsTrim s.input⟩]) ∧
      r.chat_history.length ≤ 10 ∧
      ∃ pre, pre ++ r.chat_history
          = s.messages ++ [⟨Role.user, jsTrim s.input⟩] := by
  unfold send
  rw [if_neg (by simp [h1, h2])]
  cases wsReady
  · exact ⟨_, rfl, rfl, sliceLast10_length_le _, sliceLast10_suffix _⟩
  · exact ⟨_, rfl, rfl, sliceLast10_length_le _, sliceLast10_suffix _⟩

/-- C3, witness for `outgoing_context_last_ten` at a concrete state with
a non-blank input and no turn in flight. -/
theorem outgoing_context_last_ten_witness :
    ∃ r, Option.map SendPlan.req
        (send true ⟨[⟨Role.user, "a"⟩, ⟨Role.assistant, "b"⟩], "", false,
          none, "normal", "next q"⟩).2 = some r ∧
      r.chat_history
          = sliceLast10 ([⟨Role.user, "a"⟩, ⟨Role.assistant, "b"⟩]
              ++ [⟨Role.user, jsTrim ("next q")⟩]) ∧
      r.chat_history.length ≤ 10 ∧
      ∃ pre, pre ++ r.chat_history
          = [⟨Role.user, "a"⟩, ⟨Role.assistant, "b"⟩]
              ++ [⟨Role.user, jsTrim ("next q")⟩] :=
  outgoing_context_last_ten true
    ⟨[⟨Role.user, "a"⟩, ⟨Role.assistant, "b"⟩], "", false, none, "normal",
      "next q"⟩ (by decide) rfl

/-- C4: `send` silently rejects a blank input or a submission while a
turn is in flight (the whole state, hence the log length, is unchanged
and nothing is dispatched); otherwise it appends exactly one user turn
holding the trimmed input, and a request is dispatched precisely in the
non-blank, not-in-flight case. -/
theorem submit_appends_iff_valid (wsReady : Bool) (s : ChatState) :
    (jsTrim s.input = "" ∨ s.streaming = true → send wsReady s = (s, none)) ∧
    (jsTrim s.input ≠ "" → s.streaming = false →
      (send wsReady s).1.messages
          = s.messages ++ [⟨Role.user, jsTrim s.input⟩] ∧
      ((send wsReady s).2).isSome = true) ∧
    (((send wsReady s).2).isSome = true
      ↔ jsTrim s.input ≠ "" ∧ s.streaming = false) := by
  unfold send
  by_cases h1 : jsTrim s.input = ""
  · simp [h1]
  · by_cases h2 : s.streaming
    · simp [h1, h2]
    · cases wsReady <;> simp [h1, h2, sendToWS]

/-- C4, witness: the spec's scenario — submitting
`"What is photosynthesis?"` on an empty log yields exactly the single
user turn, and a request is dispatched. -/
theorem submit_appends_iff_valid_witness :
    (send true ⟨[], "", false, none, "normal",
        "What is photosynthesis?"⟩).1.messages
      = [⟨Role.user, "What is photosynthesis?"⟩] ∧
    ((send true ⟨[], "", false, none, "normal",
        "What is photosynthesis?"⟩).2).isSome = true := by
  have h := (submit_appends_iff_valid true
    ⟨[], "", false, none, "normal", "What is photosynthesis?"⟩).2.1
    (by decide) rfl
  have ht : jsTrim ("What is photosynthesis?") = "What is photosynthesis?" := by
    decide
  rw [ht] at h
  simpa using h

/-- C5: when the socket is not open, `send` dispatches the request on
the `connectWS(); setTimeout(..., 300)` path — a plan that fires after a
fixed delay with no confirmation that the connection became ready and no
surfaced timeout error, contradicting the contract that the send is
never fired without confirmed readiness. -/
theorem deferred_send_ignores_readiness :
    (send false ⟨[], "", false, none, "normal", "hi"⟩).2
      = some (SendPlan.deferredAfterFixedDelay
          ⟨"hi", none, "normal", [⟨Role.user, "hi"⟩]⟩) := by
  decide

/-- C8: `connectWS` re-reads the stored token on every call; with the
token absent (or empty, which is falsy in the source) it builds no
socket and leaves the connection as it was — in particular still
disconnected — while any later call that finds a non-empty token opens a
connection carrying that token. -/
theorem connect_requires_credential (w : Option Conn) :
    connectWS none w = w ∧
    connectWS (some ("")) w = w ∧
    connectWS none none = none ∧
    ∀ t : String, t ≠ "" → connectWS (some t) w = some ⟨t⟩ := by
  refine ⟨rfl, rfl, rfl, ?_⟩
  intro t ht
  simp [connectWS, ht]

/-- C8, witness: with no connection, a first attempt without a token
stays disconnected and a later attempt with token `"tok"` connects. -/
theorem connect_requires_credential_witness :
    connectWS none none = none ∧
    ("tok" : String) ≠ "" ∧
    connectWS (some ("tok")) none = some ⟨"tok"⟩ := by
  have h := connect_requires_credential none
  exact ⟨h.2.2.1, by decide, h.2.2.2 ("tok") (by decide)⟩

/-- C9: a chunk event touches at most the last log entry — when the log
ends in an assistant message that message alone is replaced (same
length, same earlier entries, still assistant-last), otherwise exactly
one assistant message is appended; in all cases the length grows by at
most one. -/
theorem chunk_frame (s : ChatState) (t : String) :
    (Option.map Message.role s.messages.getLast? = some Role.assistant →
      (handleChunk s t).messages.length = s.messages.length ∧
      (handleChunk s t).messages.dropLast = s.messages.dropLast ∧
      Option.map Message.role (handleChunk s t).messages.getLast?
        = some Role.assistant) ∧
    (¬ Option.map Message.role s.messages.getLast? = some Role.assistant →
      (handleChunk s t).messages
        = s.messages ++ [⟨Role.assistant, s.pending ++ t⟩]) ∧
    (handleChunk s t).messages.length ≤ s.messages.length + 1 := by
  rcases List.eq_nil_or_concat s.messages with hm | ⟨L, b, hm⟩
  · simp [handleChunk, hm]
  · rw [List.concat_eq_append] at hm
    by_cases hb : b.role = Role.assistant
    · simp [handleChunk, hm, hb, List.getLast?_concat, List.dropLast_concat]
    · simp [handleChunk, hm, hb, List.getLast?_concat]

/-- C9, witness: a chunk arriving while the log ends in a user message
appends exactly one assistant message holding the accumulated text. -/
theorem chunk_frame_witness :
    (handleChunk ⟨[⟨Role.user, "q"⟩], "", true, none, "normal", ""⟩
        ("Pho")).messages
      = [⟨Role.user, "q"⟩] ++ [⟨Role.assistant, "" ++ "Pho"⟩] :=
  (chunk_frame ⟨[⟨Role.user, "q"⟩], "", true, none, "normal", ""⟩
    ("Pho")).2.1 (by decide)

/-- C10: when a chunk arrives after a completed turn (buffer reset by
`done`, streaming off) and the log still ends in the completed assistant
message, the handler does not open a new turn: it overwrites that
message's content with an accumulation restarted from the new
fragment's text (the log length is unchanged).  The handler looks only
at the position and role of the last entry — the source has no status
field to tell a closed turn apart. -/
theorem chunk_after_done_overwrites (log : List Message) (c t : String)
    (sd : Option Nat) (qm inp : String)
    (h : log.getLast? = some ⟨Role.assistant, c⟩) :
    (handleChunk ⟨log, "", false, sd, qm, inp⟩ t).messages
        = log.dropLast ++ [⟨Role.assistant, t⟩] ∧
    (handleChunk ⟨log, "", false, sd, qm, inp⟩ t).messages.length
        = log.length := by
  rcases List.eq_nil_or_concat log with hm | ⟨L, b, hm⟩
  · rw [hm] at h
    simp at h
  · rw [List.concat_eq_append] at hm
    subst hm
    rw [List.getLast?_concat, Option.some.injEq] at h
    subst h
    constructor
    · simp [handleChunk, List.getLast?_concat, List.dropLast_concat,
        String.empty_append]
    · simp [handleChunk, List.getLast?_concat, List.dropLast_concat]

/-- C10, witness: after the turn `"full"` completed, a stray chunk
`"next"` replaces the closed turn's content with `"next"` instead of
opening a new turn. -/
theorem chunk_after_done_overwrites_witness :
    (handleChunk ⟨[⟨Role.user, "q"⟩, ⟨Role.assistant, "full"⟩], "", false,
        none, "normal", ""⟩ ("next")).messages
      = ([⟨Role.user, "q"⟩, ⟨Role.assistant, "full"⟩] : List Message).dropLast
          ++ [⟨Role.assistant, "next"⟩] ∧
    (handleChunk ⟨[⟨Role.user, "q"⟩, ⟨Role.assistant, "full"⟩], "", false,
        none, "normal", ""⟩ ("next")).messages.length
      = ([⟨Role.user, "q"⟩, ⟨Role.assistant, "full"⟩] : List Message).length :=
  chunk_after_done_overwrites [⟨Role.user, "q"⟩, ⟨Role.assistant, "full"⟩]
    ("full") ("next") none ("normal") ("") (by decide)

/-- C7: the scope and mode setters change no message-log state (log,
buffer and in-flight flag are untouched), and their values are picked up
by the next send only: the request dispatched by the next `send` carries
exactly the newly set `document_id` and `query_mode`, while the log is
only extended — every already-closed turn is left in place unchanged. -/
theorem scope_mode_next_send_only (s : ChatState) (id : Option Nat)
    (v : String) (wsReady : Bool) :
    (setScope s id).messages = s.messages ∧
    (setMode s v).messages = s.messages ∧
    (setScope s id).pending = s.pending ∧
    (setMode s v).pending = s.pending ∧
    (setScope s id).streaming = s.streaming ∧
    (setMode s v).streaming = s.streaming ∧
    (jsTrim s.input ≠ "" → s.streaming = false →
      ∃ r, Option.map SendPlan.req
          (send wsReady (setMode (setScope s id) v)).2 = some r ∧
        r.document_id = id ∧ r.query_mode = v ∧
        ∃ tl, (send wsReady (setMode (setScope s id) v)).1.messages
            = s.messages ++ tl) := by
  refine ⟨rfl, rfl, rfl, rfl, rfl, rfl, ?_⟩
  intro h1 h2
  unfold send
  rw [if_neg (by simp [setScope, setMode, h1, h2])]
  cases wsReady
  · exact ⟨_, rfl, rfl, rfl, ⟨[⟨Role.user, jsTrim s.input⟩], rfl⟩⟩
  · exact ⟨_, rfl, rfl, rfl, ⟨[⟨Role.user, jsTrim s.input⟩], rfl⟩⟩

/-- C7, witness for `scope_mode_next_send_only`: after switching to
scope `5` and mode `"summary"`, the next send carries them and only
extends the log. -/
theorem scope_mode_next_send_only_witness :
    ∃ r, Option.map SendPlan.req
        (send true (setMode (setScope ⟨[⟨Role.user, "a"⟩], "", false, none,
          "normal", "next"⟩ (some 5)) ("summary"))).2 = some r ∧
      r.document_id = some 5 ∧ r.query_mode = "summary" ∧
      ∃ tl, (send true (setMode (setScope ⟨[⟨Role.user, "a"⟩], "", false,
          none, "normal", "next"⟩ (some 5)) ("summary"))).1.messages
          = [⟨Role.user, "a"⟩] ++ tl :=
  (scope_mode_next_send_only ⟨[⟨Role.user, "a"⟩], "", false, none, "normal",
    "next"⟩ (some 5) ("summary") true).2.2.2.2.2.2 (by decide) rfl

/-- C6: every engine operation — under the open-turn invariant and the
transport contract that frames only arrive while a turn is in flight —
either purely extends the log by appending (so nothing is reordered,
shortened or rewritten), or rewrites exactly the last entry, which is
then the trailing assistant turn of the in-flight (open) stream and
whose content only grows, keeping its accumulated text as an unchanged
left part. -/
theorem log_append_only (wsReady : Bool) (s : ChatState) (e : Event)
    (hinv : openTurnInv s) (hadm : admissible s e) :
    (∃ tl, (step wsReady s e).messages = s.messages ++ tl) ∨
    (∃ last t, s.messages.getLast? = some last ∧
      last.role = Role.assistant ∧ s.streaming = true ∧
      (step wsReady s e).messages
        = s.messages.dropLast ++ [⟨Role.assistant, last.content ++ t⟩]) := by
  cases e with
  | submit =>
    left
    show ∃ tl, (send wsReady s).1.messages = s.messages ++ tl
    unfold send
    by_cases h1 : jsTrim s.input = ""
    · exact ⟨[], by simp [h1]⟩
    · by_cases h2 : s.streaming
      · exact ⟨[], by simp [h1, h2]⟩
      · cases wsReady
        · exact ⟨[⟨Role.user, jsTrim s.input⟩], by simp [h1, h2]⟩
        · exact ⟨[⟨Role.user, jsTrim s.input⟩], by simp [h1, h2]⟩
  | chunk t =>
    have hstr : s.streaming = true := hadm
    rcases List.eq_nil_or_concat s.messages with hm | ⟨L, b, hm⟩
    · exact Or.inl ⟨[⟨Role.assistant, s.pending ++ t⟩],
        by simp [step, handleChunk, hm]⟩
    · rw [List.concat_eq_append] at hm
      obtain ⟨br, bc⟩ := b
      by_cases hb : br = Role.assistant
      · subst hb
        right
        refine ⟨⟨Role.assistant, bc⟩, t, by rw [hm, List.getLast?_concat],
          rfl, hstr, ?_⟩
        have hc : bc = s.pending :=
          hinv hstr ⟨Role.assistant, bc⟩ (by rw [hm, List.getLast?_concat]) rfl
        simp [step, handleChunk, hm, List.getLast?_concat,
          List.dropLast_concat, hc]
      · exact Or.inl ⟨[⟨Role.assistant, s.pending ++ t⟩],
          by simp [step, handleChunk, hm, List.getLast?_concat, hb]⟩
  | done => exact Or.inl ⟨[], by simp [step, handleDone]⟩
  | error m => exact Or.inl ⟨[⟨Role.assistant, "Error: " ++ m⟩], rfl⟩

/-- C6, witness for `log_append_only`: a chunk arriving mid-stream for
the open turn `"Pho"` only rewrites that trailing open turn, extending
its content. -/
theorem log_append_only_witness :
    (∃ tl, (step true ⟨[⟨Role.user, "q"⟩, ⟨Role.assistant, "Pho"⟩], "Pho",
        true, none, "normal", ""⟩ (Event.chunk ("to"))).messages
      = [⟨Role.user, "q"⟩, ⟨Role.assistant, "Pho"⟩] ++ tl) ∨
    (∃ last t, ([⟨Role.user, "q"⟩, ⟨Role.assistant, "Pho"⟩]
        : List Message).getLast? = some last ∧
      last.role = Role.assistant ∧ (true : Bool) = true ∧
      (step true ⟨[⟨Role.user, "q"⟩, ⟨Role.assistant, "Pho"⟩], "Pho",
          true, none, "normal", ""⟩ (Event.chunk ("to"))).messages
        = ([⟨Role.user, "q"⟩, ⟨Role.assistant, "Pho"⟩]
            : List Message).dropLast
            ++ [⟨Role.assistant, last.content ++ t⟩]) := by
  refine log_append_only true
    ⟨[⟨Role.user, "q"⟩, ⟨Role.assistant, "Pho"⟩], "Pho", true, none,
      "normal", ""⟩ (Event.chunk ("to")) ?_ rfl
  intro _ x hx hr
  simp only [List.getLast?_cons_cons, List.getLast?_singleton,
    Option.some.injEq] at hx
  rw [← hx]

/-- Folding the event list splits at an append. -/
theorem runEvents_append (wsReady : Bool) (s : ChatState)
    (l1 l2 : List Event) :
    runEvents wsReady s (l1 ++ l2)
      = runEvents wsReady (runEvents wsReady s l1) l2 :=
  List.foldl_append _ _ _ _

/-- Chunks arriving while the log ends in the open assistant turn whose
content equals the buffer keep extending that turn: after processing
them the turn holds the old content followed by all new deltas in
order, the buffer matches, and the in-flight flag is untouched. -/
theorem runEvents_chunks (wsReady : Bool) (ts : List String) :
    ∀ (s : ChatState) (base : List Message) (c : String),
      s.messages = base ++ [⟨Role.assistant, c⟩] → s.pending = c →
      (runEvents wsReady s (ts.map Event.chunk)).messages
          = base ++ [⟨Role.assistant, c ++ concatDeltas ts⟩] ∧
      (runEvents wsReady s (ts.map Event.chunk)).pending
          = c ++ concatDeltas ts ∧
      (runEvents wsReady s (ts.map Event.chunk)).streaming = s.streaming := by
  induction ts with
  | nil =>
    intro s base c h1 h2
    refine ⟨?_, ?_, rfl⟩
    · show s.messages = base ++ [⟨Role.assistant, c ++ concatDeltas []⟩]
      rw [h1]
      simp [concatDeltas, String.append_empty]
    · show s.pending = c ++ concatDeltas []
      rw [h2]
      simp [concatDeltas, String.append_empty]
  | cons t ts ih =>
    intro s base c h1 h2
    obtain ⟨hm, hp, hs⟩ := ih (handleChunk s t) base (c ++ t)
      (by simp [handleChunk, h1, h2, List.getLast?_concat,
        List.dropLast_concat])
      (by simp [handleChunk, h2])
    refine ⟨?_, ?_, hs⟩
    · show (runEvents wsReady (handleChunk s t) (ts.map Event.chunk)).messages
          = base ++ [⟨Role.assistant, c ++ (t ++ concatDeltas ts)⟩]
      rw [← String.append_assoc]
      exact hm
    · show (runEvents wsReady (handleChunk s t) (ts.map Event.chunk)).pending
          = c ++ (t ++ concatDeltas ts)
      rw [← String.append_assoc]
      exact hp

/-- C1, counterexample: a turn consisting of zero chunk fragments
followed by the completion signal leaves the log without any assistant
turn at all — the log is still the lone user turn — whereas the claim
asserts a final assistant turn whose content is the (empty)
concatenation of deltas, closed. -/
theorem zero_chunks_no_assistant_turn :
    (runEvents true ⟨[⟨Role.user, "q"⟩], "", true, none, "normal", ""⟩
        [Event.done]).messages = [⟨Role.user, "q"⟩] ∧
    ¬ Option.map Message.role (runEvents true ⟨[⟨Role.user, "q"⟩], "", true,
        none, "normal", ""⟩ [Event.done]).messages.getLast?
      = some Role.assistant := by
  decide

/-- C1 (amended): for a turn of *at least one* chunk fragment followed
by the completion signal and no error, started from a post-send state
(buffer empty, log not ending in an assistant message), processing the
fragments in order appends exactly one assistant turn whose content is
the concatenation of all the deltas in arrival order, and the turn is
closed (streaming off, buffer reset); with zero chunks no assistant
turn is created. -/
theorem stream_reassembly (wsReady : Bool) (s : ChatState) (ts : List String)
    (hrole : ¬ Option.map Message.role s.messages.getLast?
      = some Role.assistant)
    (hpend : s.pending = "") (hts : ts ≠ []) :
    (runEvents wsReady s (ts.map Event.chunk ++ [Event.done])).messages
        = s.messages ++ [⟨Role.assistant, concatDeltas ts⟩] ∧
    (runEvents wsReady s (ts.map Event.chunk ++ [Event.done])).streaming
        = false ∧
    (runEvents wsReady s (ts.map Event.chunk ++ [Event.done])).pending
        = "" := by
  obtain ⟨t, rest, rfl⟩ : ∃ t rest, ts = t :: rest := by
    cases ts with
    | nil => exact absurd rfl hts
    | cons t rest => exact ⟨t, rest, rfl⟩
  have h1 : (handleChunk s t).messages
      = s.messages ++ [⟨Role.assistant, t⟩] := by
    rcases List.eq_nil_or_concat s.messages with hm | ⟨L, b, hm⟩
    · simp [handleChunk, hm, hpend, String.empty_append]
    · rw [List.concat_eq_append] at hm
      have hb : ¬ b.role = Role.assistant := by
        intro hb
        exact hrole (by rw [hm, List.getLast?_concat]; simp [hb])
      simp [handleChunk, hm, List.getLast?_concat, hb, hpend,
        String.empty_append]
  have h2 : (handleChunk s t).pending = t := by
    simp [handleChunk, hpend, String.empty_append]
  obtain ⟨hm, hp, hs⟩ :=
    runEvents_chunks wsReady rest (handleChunk s t) s.messages t h1 h2
  rw [runEvents_append]
  refine ⟨?_, rfl, rfl⟩
  show (handleDone (runEvents wsReady s
      ((t :: rest).map Event.chunk))).messages
    = s.messages ++ [⟨Role.assistant, t ++ concatDeltas rest⟩]
  exact hm

/-- C1, witness for `stream_reassembly`: the spec's scenario — chunks
`"Photo"`, `"synthesis is..."` then `done` yield one closed assistant
turn reading `"Photosynthesis is..."`. -/
theorem stream_reassembly_witness :
    (runEvents true ⟨[⟨Role.user, "q"⟩], "", true, none, "normal", ""⟩
        ((["Photo", "synthesis is..."] : List String).map Event.chunk
          ++ [Event.done])).messages
      = [⟨Role.user, "q"⟩]
          ++ [⟨Role.assistant, concatDeltas ["Photo", "synthesis is..."]⟩] ∧
    (runEvents true ⟨[⟨Role.user, "q"⟩], "", true, none, "normal", ""⟩
        ((["Photo", "synthesis is..."] : List String).map Event.chunk
          ++ [Event.done])).streaming = false ∧
    (runEvents true ⟨[⟨Role.user, "q"⟩], "", true, none, "normal", ""⟩
        ((["Photo", "synthesis is..."] : List String).map Event.chunk
          ++ [Event.done])).pending = "" :=
  stream_reassembly true ⟨[⟨Role.user, "q"⟩], "", true, none, "normal", ""⟩
    ["Photo", "synthesis is..."] (by decide) rfl (by decide)

end StudyAI
